import Mathlib

/-!
Verification of the Back In Time udev service helper (`qt/serviceHelper.py`)
and process executor / rsync capability probe (`common/tools.py`).

The relevant Python functions are shallowly embedded as pure Lean
functions.  Strings are modelled as Lean `String`s (Python `str`),
the mutable dictionaries of the broker as association lists, and the
filesystem as an association list from user name to file contents.
-/

namespace BackInTime

/-- Single-quote character, built numerically so the su command
    template of `addRule` (su dash singlequote user singlequote ...)
    can be reproduced verbatim. -/
def sq : String := String.mk [Char.ofNat 39]

deriving instance DecidableEq for Except

/-- Resolved tool paths of `UdevRules.__init__` (`_which` results with
    their documented fallbacks). -/
structure Cfg where
  su : String
  backintime : String
  nice : String
  ionice : String

deriving DecidableEq

/-- Default configuration: the fallback paths hard-coded in
    `UdevRules.__init__`. -/
def cfg0 : Cfg :=
  ⟨"/bin/su", "/usr/bin/backintime", "/usr/bin/nice", "/usr/bin/ionice"⟩

/-- The named D-Bus error classes of `serviceHelper.py`, plus the two
    generic Python failures that can escape `_checkPolkitPrivilege`
    (an unhandled `dbus.DBusException` and `RecursionError`). -/
inductive VErr where
  | invalidChar (bad : List Char)
  | invalidCmd (msg : String)
  | limitExceeded (msg : String)
  | permissionDenied (privilege : String)
  | dbusError
  | recursionError

deriving DecidableEq

/-- Characters allowed in `cmd` by the character check of `addRule`:
    ASCII letters, digits, dash, slash, dot, greater-than, ampersand
    and space.  The regex reports the complement of this class. -/
def cmdCharOk (c : Char) : Bool :=
  c.isAlpha || c.isDigit || c = '-' || c = '/' || c = '.' || c = '>' || c = '&' || c = ' '

/-- Characters allowed in `uuid` by the character check of `addRule`:
    ASCII letters, digits and dash. -/
def uuidCharOk (c : Char) : Bool :=
  c.isAlpha || c.isDigit || c = '-'

/-- `re.findall` of the complement class: the offending characters of
    a string, in order of occurrence. -/
def badChars (ok : Char → Bool) (s : String) : List Char :=
  s.data.filter (fun c => !(ok c))

/-- Python `str.find(sub) != -1`: `sub` occurs as contiguous substring. -/
def hasSubstr (s sub : String) : Bool :=
  (List.range (s.data.length + 1)).any
    (fun i => List.isPrefixOf sub.data (s.data.drop i))

/-- Python `str.split()` with no separator: split on runs of
    whitespace, dropping empty pieces. -/
def pySplit (s : String) : List String :=
  ((s.data.splitOnP (fun c => c.isWhitespace)).filter (fun l => l ≠ [])).map String.mk

/-- Python str.startswith, executable on the character list. -/
def strStartsWith (s pre : String) : Bool :=
  List.isPrefixOf pre.data s.data

/-- Match of the nice switch regex (caret dash n) against a token. -/
def niceSwitch (s : String) : Bool :=
  strStartsWith s "-n"

/-- Match of the ionice switch regex (caret dash c, or caret dash n). -/
def ioniceSwitch (s : String) : Bool :=
  strStartsWith s "-c" || strStartsWith s "-n"

/-- Inner `while parts and re.match(switches, parts[0]): parts.pop(0)`
    of `_validateCmd`: drop leading switch tokens. -/
def dropSwitches (sw : String → Bool) : List String → List String
  | [] => []
  | x :: xs => if sw x then dropSwitches sw xs else x :: xs

/-- Outer `while parts:` loop of `_validateCmd`: repeatedly strip a
    leading `nice`/`ionice` token together with its switches; stop as
    soon as the head is neither.  `fuel` bounds the iteration; each
    iteration removes at least one element, so `parts.length` fuel is
    exact. -/
def stripWhitelistFuel (cfg : Cfg) : Nat → List String → List String
  | 0, parts => parts
  | _ + 1, [] => []
  | n + 1, x :: xs =>
    if x = cfg.nice then stripWhitelistFuel cfg n (dropSwitches niceSwitch xs)
    else if x = cfg.ionice then stripWhitelistFuel cfg n (dropSwitches ioniceSwitch xs)
    else x :: xs

def stripWhitelist (cfg : Cfg) (parts : List String) : List String :=
  stripWhitelistFuel cfg parts.length parts

/-- `UdevRules._validateCmd`. -/
def validateCmd (cfg : Cfg) (cmd : String) : Except VErr Unit :=
  if hasSubstr cmd "&&" then
    .error (.invalidCmd "contains && concatenation")
  else if !(strStartsWith cmd "/") then
    .error (.invalidCmd "does not start with /")
  else
    match stripWhitelist cfg (pySplit cmd) with
    | [] => .error (.invalidCmd "does not contain the backintime command")
    | p :: _ =>
      if p = cfg.backintime then .ok ()
      else .error (.invalidCmd "contains non-whitelisted cmd/parameter")

/-- The validation prefix of `UdevRules.addRule`: the two character
    allow-list checks followed by `_validateCmd`.  This part of
    `addRule` reads no mutable state (only the resolved tool paths
    fixed at construction), hence it is a pure function of
    `(cmd, uuid)`. -/
def addRuleValidate (cfg : Cfg) (cmd uuid : String) : Except VErr Unit :=
  if badChars cmdCharOk cmd ≠ [] then
    .error (.invalidChar (badChars cmdCharOk cmd))
  else if badChars uuidCharOk uuid ≠ [] then
    .error (.invalidChar (badChars uuidCharOk uuid))
  else
    validateCmd cfg cmd

/-- Association-list lookup, the model of Python dict indexing
    (`d[k]` / `d.get(k)`). -/
def alookup {α : Type} : List (String × α) → String → Option α
  | [], _ => none
  | (k, v) :: t, key => if k = key then some v else alookup t key

/-- Association-list update, the model of Python `d[k] = v`: replaces
    in place if the key exists (dicts keep insertion order), otherwise
    appends at the end. -/
def aset {α : Type} : List (String × α) → String → α → List (String × α)
  | [], key, v => [(key, v)]
  | (k, w) :: t, key, v =>
    if k = key then (k, v) :: t else (k, w) :: aset t key v

/-- Association-list removal, the model of Python `del d[k]`. -/
def aerase {α : Type} : List (String × α) → String → List (String × α)
  | [], _ => []
  | (k, w) :: t, key => if k = key then t else (k, w) :: aerase t key

/-- Broker state: `tmpDict` (owner token to staged rule lines) and the
    per-user persisted rule files (user name to file contents, one file
    per user at the fixed path `UDEV_RULES_PATH % user`). -/
structure St where
  tmpDict : List (String × List String)
  files : List (String × String)

deriving DecidableEq

/-- The empty broker: fresh `UdevRules` instance and no persisted
    rule file. -/
def st0 : St := ⟨[], []⟩

/-- `UdevRules._checkLimits` with the constructor constants
    `max_rules = 100`, `max_users = 20`, `max_cmd_len = 120`. -/
def checkLimits (st : St) (owner cmd : String) : Except VErr Unit :=
  if ((alookup st.tmpDict owner).getD []).length ≥ 100 then
    .error (.limitExceeded "Maximum number of cached rules reached")
  else if st.tmpDict.length ≥ 20 then
    .error (.limitExceeded "Maximum number of cached users reached")
  else if cmd.length > 120 then
    .error (.limitExceeded "Maximum length of command line reached")
  else
    .ok ()

/-- The su command synthesized by `addRule`:
    `su - <user> -c <cmd>` with the user and command single-quoted. -/
def mkSuCmd (cfg : Cfg) (user cmd : String) : String :=
  cfg.su ++ " - " ++ sq ++ user ++ sq ++ " -c " ++ sq ++ cmd ++ sq

/-- The udev rule line synthesized by `addRule`; note the trailing
    newline from the Python template. -/
def mkRule (cfg : Cfg) (user cmd uuid : String) : String :=
  "ACTION==\"add|change\", ENV{ID_FS_UUID}==\"" ++ uuid ++ "\", RUN+=\""
    ++ mkSuCmd cfg user cmd ++ "\"\n"

/-- `UdevRules.addRule`: validate both strings, check the limits, then
    append the synthesized rule to the staged list of `owner`.  Raising
    a D-Bus exception is modelled as returning `.error`; the state
    component of the pair is the broker state after the call (the
    checks precede every mutation, so on error it is unchanged). -/
def addRule (cfg : Cfg) (st : St) (owner user cmd uuid : String) :
    Except VErr Unit × St :=
  match addRuleValidate cfg cmd uuid with
  | .error e => (.error e, st)
  | .ok () =>
    match checkLimits st owner cmd with
    | .error e => (.error e, st)
    | .ok () =>
      let cur := (alookup st.tmpDict owner).getD []
      (.ok (), ⟨aset st.tmpDict owner (cur ++ [mkRule cfg user cmd uuid]), st.files⟩)

/-- `UdevRules._clean`. -/
def clean (st : St) (owner : String) : St :=
  ⟨aerase st.tmpDict owner, st.files⟩

/-- Python `file.readlines()`: split into lines, each line keeping its
    terminating newline; a last line without newline is kept as is. -/
def readlinesAux : List Char → List Char → List String
  | [], [] => []
  | [], acc => [String.mk acc.reverse]
  | c :: rest, acc =>
    if c = '\n' then String.mk (acc.reverse ++ [c]) :: readlinesAux rest []
    else readlinesAux rest (c :: acc)

def pyReadlines (s : String) : List String :=
  readlinesAux s.data []

/-- Python `file.writelines(rules)`: the file contents become the
    concatenation of the rule strings. -/
def pyWritelines (rules : List String) : String :=
  String.join rules

/-- `UdevRules.delete`, parameterized over the authorization outcome
    (`auth p` is the result of `_checkPolkitPrivilege` for privilege
    `p`).  Clears the staged state of `owner` first; if a persisted
    file exists for `user` it is removed only after authorization,
    and an authorization error propagates. -/
def deleteOp (auth : String → Except VErr Unit) (st : St) (owner user : String) :
    Except VErr Unit × St :=
  let st1 := clean st owner
  match alookup st1.files user with
  | none => (.ok (), st1)
  | some _ =>
    match auth "net.launchpad.backintime.UdevRuleDelete" with
    | .error e => (.error e, st1)
    | .ok () => (.ok (), ⟨st1.tmpDict, aerase st1.files user⟩)

/-- `UdevRules.save`, parameterized over the authorization outcome.
    Returns `false` (no change) when `owner` has nothing staged (after
    an implicit `delete`) or when the staged list equals the persisted
    file split into lines; otherwise authorizes and replaces the file
    with the concatenation of the staged rules. -/
def save (auth : String → Except VErr Unit) (st : St) (owner user : String) :
    Except VErr Bool × St :=
  match alookup st.tmpDict owner with
  | none =>
    match deleteOp auth st owner user with
    | (.error e, st1) => (.error e, st1)
    | (.ok (), st1) => (.ok false, st1)
  | some [] =>
    match deleteOp auth st owner user with
    | (.error e, st1) => (.error e, st1)
    | (.ok (), st1) => (.ok false, st1)
  | some rules =>
    match alookup st.files user with
    | some contents =>
      if rules = pyReadlines contents then
        (.ok false, clean st owner)
      else
        match auth "net.launchpad.backintime.UdevRuleSave" with
        | .error e => (.error e, st)
        | .ok () =>
          (.ok true, ⟨(clean st owner).tmpDict, aset st.files user (pyWritelines rules)⟩)
    | none =>
      match auth "net.launchpad.backintime.UdevRuleSave" with
      | .error e => (.error e, st)
      | .ok () =>
        (.ok true, ⟨(clean st owner).tmpDict, aset st.files user (pyWritelines rules)⟩)

/-- Authorization oracle that always grants (polkit approves every
    `CheckAuthorization` request). -/
def authOk : String → Except VErr Unit := fun _ => .ok ()

/-- A staged rule line as produced by `addRule`: nonempty, terminated
    by a newline, with no interior newline. -/
def lineShape : List Char → Bool
  | [] => false
  | [c] => c == '\n'
  | c :: cs => (c != '\n') && lineShape cs

def ruleLine (r : String) : Bool :=
  lineShape r.data

/-- Broker state in which exactly one owner has the given staged list
    (and no persisted file): the state reached by staging rules into a
    fresh broker. -/
def stagedSt (owner : String) (l : List String) : St :=
  ⟨if l = [] then [] else [(owner, l)], []⟩

/-- `n` successive `addRule` calls by the same owner with the same
    command and uuid, stopping at the first failure. -/
def addRuleN (cfg : Cfg) (owner user cmd uuid : String) : Nat → St → Except VErr Unit × St
  | 0, st => (.ok (), st)
  | n + 1, st =>
    match addRule cfg st owner user cmd uuid with
    | (.ok _, st1) => addRuleN cfg owner user cmd uuid n st1
    | (.error e, st1) => (.error e, st1)

/-- Outcome of one `CheckAuthorization` D-Bus call to polkit: a normal
    reply carrying the is_auth boolean, or a raised `DBusException`,
    which `_checkPolkitPrivilege` distinguishes by whether its error
    name is `org.freedesktop.DBus.Error.ServiceUnknown`. -/
inductive PolkitResp where
  | auth (b : Bool)
  | exnServiceUnknown
  | exnOther

deriving DecidableEq

/-- `UdevRules._checkPolkitPrivilege` on the enforcing D-Bus path
    (`sender` present, `enforce_polkit` true as set by the
    constructor).  `attempts n` is the outcome of the n-th
    `CheckAuthorization` call; on `ServiceUnknown` the method drops the
    proxy and calls itself again, so `fuel` models the Python recursion
    limit: when it is exhausted the interpreter raises
    `RecursionError`, which also propagates to the caller. -/
def checkPolkit (attempts : Nat → PolkitResp) (priv : String) :
    Nat → Nat → Except VErr Unit
  | 0, _ => .error .recursionError
  | fuel + 1, k =>
    match attempts k with
    | .auth true => .ok ()
    | .auth false => .error (.permissionDenied priv)
    | .exnServiceUnknown => checkPolkit attempts priv fuel (k + 1)
    | .exnOther => .error .dbusError

/-- The authorization function that `save`/`delete` see when every
    check goes through `_checkPolkitPrivilege` with the given attempt
    outcomes. -/
def polkitAuth (attempts : Nat → PolkitResp) (fuel : Nat) :
    String → Except VErr Unit :=
  fun priv => checkPolkit attempts priv fuel 0

/-- Observable file contents after each successive `writelines` element
    is written, starting from contents `acc`. -/
def writeStatesAux (acc : String) : List String → List String
  | [] => []
  | r :: rs => (acc ++ r) :: writeStatesAux (acc ++ r) rs

/-- The sequence of file states a concurrent reader can observe while
    `save` replaces the rule file: the old contents, then the empty
    file (open for writing truncates in place), then the contents after
    each staged rule is written in turn.  Models the
    `open(path, w)` / `f.writelines(rules)` step of `save`. -/
def saveWriteTrace (old : String) (rules : List String) : List String :=
  old :: "" :: writeStatesAux "" rules

/-- State of one process-wide signal handler: default disposition or
    the handler installed by `Execute.run`. -/
inductive Handler where
  | dfl
  | installed

deriving DecidableEq

/-- The three handlers `Execute.run` manipulates (SIGTSTP, SIGCONT,
    SIGHUP). -/
structure Handlers where
  tstp : Handler
  cont : Handler
  hup : Handler

deriving DecidableEq

def defaultHandlers : Handlers := ⟨.dfl, .dfl, .dfl⟩

def installedHandlers : Handlers := ⟨.installed, .installed, .installed⟩

/-- Environment of one `Execute.run` invocation: whether
    `signal.signal` succeeds (it raises ValueError off the Qt main
    thread, caught by the surrounding try/except), the spawn outcome
    (`none` models `subprocess.Popen` raising; otherwise the lines the
    child writes and its exit code), whether a callback was supplied,
    on which delivered line the callback raises, and the filter
    chain. -/
structure RunEnv where
  signalOk : Bool
  spawn : Option (List String × Int)
  cbPresent : Bool
  cbRaisesOn : String → Bool
  filters : List (String → String)

/-- Outcome of `Execute.run`: normal return of the exit code, or a
    propagating exception from `Popen` or from the callback. -/
inductive RunOutcome where
  | ret (code : Int)
  | spawnExn
  | callbackExn

deriving DecidableEq

/-- Python `line.rstrip(newline)`. -/
def pyRstripNl (s : String) : String :=
  String.mk ((s.data.reverse.dropWhile (fun c => c = '\n')).reverse)

/-- The filter chain applied to one line. -/
def applyFilters (fs : List (String → String)) (s : String) : String :=
  fs.foldl (fun acc f => f acc) s

/-- The streaming loop of `Execute.run`: strip the newline, filter,
    drop lines that became empty, hand the rest to the callback;
    returns true when the callback raises on some delivered line. -/
def streamRaises (fs : List (String → String)) (cb : String → Bool) :
    List String → Bool
  | [] => false
  | l :: ls =>
    let l1 := applyFilters fs (pyRstripNl l)
    if l1 = "" then streamRaises fs cb ls
    else if cb l1 then true
    else streamRaises fs cb ls

/-- `Execute.run`: install the three handlers (when permitted), spawn,
    stream, wait, then reset the handlers to default.  The reset is
    written after the streaming code with no try/finally, so it only
    happens on the normal-return path: an exception from `Popen` or
    from the callback leaves the handlers as they were installed. -/
def run (env : RunEnv) : RunOutcome × Handlers :=
  let h0 := if env.signalOk then installedHandlers else defaultHandlers
  match env.spawn with
  | none => (.spawnExn, h0)
  | some (lines, rc) =>
    if env.cbPresent && streamRaises env.filters env.cbRaisesOn lines then
      (.callbackExn, h0)
    else
      (.ret rc, if env.signalOk then defaultHandlers else h0)

/-- Spawn failure with handlers installed. -/
def envSpawnFail : RunEnv := ⟨true, none, false, fun _ => false, []⟩

/-- Callback raising on the first delivered line. -/
def envCbFail : RunEnv := ⟨true, some (["boom"], 0), true, fun _ => true, []⟩

/-- `Execute.pause`: sends SIGSTOP to the child iff `pausable` is set
    and a child is live (the slot connected to SIGTSTP). -/
def pauseAction (pausable hasProc : Bool) : Bool :=
  pausable && hasProc

/-- `Execute.resume`: sends SIGCONT to the child iff `pausable` is set
    and a child is live (the slot connected to SIGCONT). -/
def resumeAction (pausable hasProc : Bool) : Bool :=
  pausable && hasProc

/-- `Execute.kill`: kills the child iff `pausable` is set and a child
    is live (the slot connected to SIGHUP) — the same guard as the
    pause/resume slots, including the `self.pausable` test. -/
def killAction (pausable hasProc : Bool) : Bool :=
  pausable && hasProc

/-- Python regex whitespace class (ASCII part). -/
def isPyWs (c : Char) : Bool :=
  c = ' ' || c = '\t' || c = '\n' || c = '\r' || c = '\x0b' || c = '\x0c'

def dropWsL (l : List Char) : List Char :=
  l.dropWhile isPyWs

/-- Consume a literal pattern prefix. -/
def stripLitL : List Char → List Char → Option (List Char)
  | [], l => some l
  | _ :: _, [] => none
  | p :: ps, c :: cs => if c = p then stripLitL ps cs else none

/-- Numeric value of an ASCII digit. -/
def dval (c : Char) : Nat :=
  c.toNat - 48

/-- First version matcher of `rsyncCaps`: anchored match of
    rsync, whitespace, version, whitespace, digit dot digit, anything.
    Returns the two captured digits. -/
def matchVer1 (l : List Char) : Option (Nat × Nat) :=
  match stripLitL "rsync".data l with
  | none => none
  | some r1 =>
    match stripLitL "version".data (dropWsL r1) with
    | none => none
    | some r2 =>
      match dropWsL r2 with
      | c1 :: c2 :: c3 :: _ =>
        if c1.isDigit && c2 = '.' && c3.isDigit then some (dval c1, dval c3) else none
      | _ => none

/-- Second version matcher of `rsyncCaps`: as the first but with a
    leading v and a five-character group digit dot digit ANY digit —
    the middle dot of the pattern is unescaped, so it matches any
    character except a newline.  Returns digits and the wildcard
    character. -/
def matchVer2 (l : List Char) : Option (Nat × Nat × Char × Nat) :=
  match stripLitL "rsync".data l with
  | none => none
  | some r1 =>
    match stripLitL "version".data (dropWsL r1) with
    | none => none
    | some r2 =>
      match dropWsL r2 with
      | v :: c1 :: c2 :: c3 :: x :: c5 :: _ =>
        if v = 'v' && c1.isDigit && c2 = '.' && c3.isDigit && x != '\n' && c5.isDigit then
          some (dval c1, dval c3, x, dval c5)
        else none
      | _ => none

/-- packaging.version comparison of a two-digit release d1.d2 against
    the threshold 3.1. -/
def ver1GE (d1 d2 : Nat) : Bool :=
  decide (3 < d1) || (decide (d1 = 3) && decide (1 ≤ d2))

/-- packaging.version semantics of `Version(g) >= Version(3.1)` for the
    five-character group d1 dot d2 x d3 captured by the second matcher:
    a second dot gives a three-component release; a digit extends the
    minor number; a b c (case-insensitive) make a pre-release of
    d1.d2, which is below the plain release; dash, r and R make a
    post-release and plus a local version, all at least the base
    release; anything else is rejected by `Version` with
    `InvalidVersion`, modelled as `none` (the exception propagates out
    of `rsyncCaps`). -/
def ver2GE (d1 d2 : Nat) (x : Char) (d3 : Nat) : Option Bool :=
  if x = '.' then
    some (ver1GE d1 d2)
  else if x.isDigit then
    some (decide (3 < d1) || (decide (d1 = 3) && decide (1 ≤ d2 * 100 + dval x * 10 + d3)))
  else if x = 'a' || x = 'b' || x = 'c' || x = 'A' || x = 'B' || x = 'C' then
    some (decide (3 < d1) || (decide (d1 = 3) && decide (1 < d2)))
  else if x = '-' || x = '+' || x = 'r' || x = 'R' then
    some (ver1GE d1 d2)
  else
    none

/-- The version-matcher loop of `rsyncCaps`: try the first matcher,
    then the second; append progress2 on the first match whose version
    is at least 3.1, stop there. -/
def verBranch (l : List Char) : Except Unit (List String) :=
  match matchVer1 l with
  | some (d1, d2) =>
    if ver1GE d1 d2 then .ok ["progress2"]
    else
      match matchVer2 l with
      | some (a, b, x, c) =>
        match ver2GE a b x c with
        | none => .error ()
        | some true => .ok ["progress2"]
        | some false => .ok []
      | none => .ok []
  | none =>
    match matchVer2 l with
    | some (a, b, x, c) =>
      match ver2GE a b x c with
      | none => .error ()
      | some true => .ok ["progress2"]
      | some false => .ok []
    | none => .ok []

/-- All positions at which `pat` occurs in `l`. -/
def occurs (pat l : List Char) : List Nat :=
  (List.range (l.length + 1)).filter (fun i => List.isPrefixOf pat (l.drop i))

/-- The Capabilities matcher of `rsyncCaps` (DOTALL, anchored): dot-star,
    the literal Capabilities marker, a greedy nonempty group, a blank
    line, dot-star.  Both repetitions being greedy, the group runs from
    just after the last viable marker to the last blank line of the
    text; the match needs at least one group character. -/
def capsGroup (l : List Char) : Option (List Char) :=
  match (occurs "\n\n".data l).getLast? with
  | none => none
  | some qL =>
    match ((occurs "Capabilities:".data l).filter (fun p => p + 14 ≤ qL)).getLast? with
    | none => none
    | some p => some ((l.drop (p + 13)).take (qL - (p + 13)))

/-- Python str.split(sep) for a single-character separator (keeps empty
    pieces). -/
def splitOnCharL (sep : Char) : List Char → List (List Char)
  | [] => [[]]
  | c :: cs =>
    match splitOnCharL sep cs with
    | h :: t => if c = sep then [] :: h :: t else (c :: h) :: t
    | [] => [[]]

def spOrNl (c : Char) : Bool :=
  c = ' ' || c = '\n'

/-- Python str.strip of spaces and newlines. -/
def pyStripSpNl (l : List Char) : List Char :=
  ((l.dropWhile spOrNl).reverse.dropWhile spOrNl).reverse

/-- The Capabilities-section tokenizer of `rsyncCaps`: per line, split
    on commas, strip spaces and newlines, keep the nonempty tokens. -/
def capsTokens (g : List Char) : List String :=
  (((splitOnCharL '\n' g).map (fun line =>
      ((splitOnCharL ',' line).map pyStripSpNl).filter (fun t => t ≠ []))).flatten).map
    String.mk

/-- `tools.rsyncCaps` on a given probe text (the `data` argument used
    by the unit tests; the subprocess probe only produces that text).
    `.error` models an uncaught `InvalidVersion` exception escaping the
    function. -/
def rsyncCaps (data : String) : Except Unit (List String) :=
  match verBranch data.data with
  | .error e => .error e
  | .ok caps =>
    match capsGroup data.data with
    | none => .ok caps
    | some g => .ok (caps ++ capsTokens g)

/-- Spec-side condition: some version matcher fires with a parsed
    version at least 3.1 (following the matcher order and stop of the
    loop). -/
def versionCond (l : List Char) : Bool :=
  match matchVer1 l with
  | some (d1, d2) =>
    ver1GE d1 d2 ||
      (match matchVer2 l with
       | some (a, b, x, c) => ver2GE a b x c == some true
       | none => false)
  | none =>
    match matchVer2 l with
    | some (a, b, x, c) => ver2GE a b x c == some true
    | none => false

/-- Spec-side condition: the run reaches the second matcher and its
    captured group is not a valid version string. -/
def errCond (l : List Char) : Bool :=
  (match matchVer1 l with
   | some (d1, d2) => !ver1GE d1 d2
   | none => true)
  && (match matchVer2 l with
      | some (a, b, x, c) => ver2GE a b x c == none
      | none => false)

/-- Helper: a result of the validation is either acceptance or a named
    error. -/
lemma error_or_ok (r : Except VErr Unit) : r = .ok () ∨ ∃ e, r = .error e := by
  cases r with
  | error e => exact Or.inr ⟨e, rfl⟩
  | ok u => cases u; exact Or.inl rfl

/-- Helper: if the validation of `addRule` accepts, then the command
    contains no && and starts with a slash (the corresponding checks of
    `_validateCmd` were passed). -/
lemma addRuleValidate_ok_shape (cfg : Cfg) (cmd uuid : String)
    (h : addRuleValidate cfg cmd uuid = .ok ()) :
    hasSubstr cmd "&&" = false ∧ strStartsWith cmd "/" = true := by
  unfold addRuleValidate validateCmd at h
  split_ifs at h with h1 h2 h3 h4
  exact ⟨by simpa using h3, by simpa using h4⟩

/-- C1: the accept/reject decision of the validation in `addRule` is a
    pure function of `(cmd, uuid)` given the fixed resolved tool paths,
    hence re-validating the same strings yields the same decision; any
    command containing the substring && is rejected with a named
    validation error, and any command not starting with a slash is
    rejected with a named validation error. -/
theorem claim_C1_validation (cfg : Cfg) (cmd uuid : String) :
    addRuleValidate cfg cmd uuid = addRuleValidate cfg cmd uuid
    ∧ (hasSubstr cmd "&&" = true → ∃ e, addRuleValidate cfg cmd uuid = .error e)
    ∧ (strStartsWith cmd "/" = false → ∃ e, addRuleValidate cfg cmd uuid = .error e) := by
  refine ⟨rfl, fun h => ?_, fun h => ?_⟩
  · rcases error_or_ok (addRuleValidate cfg cmd uuid) with hok | he
    · have := (addRuleValidate_ok_shape cfg cmd uuid hok).1
      rw [h] at this
      cases this
    · exact he
  · rcases error_or_ok (addRuleValidate cfg cmd uuid) with hok | he
    · have := (addRuleValidate_ok_shape cfg cmd uuid hok).2
      rw [h] at this
      cases this
    · exact he

/-- Witness for C1 at the concrete pair (x&&y, u): the command both
    contains && and does not start with a slash, and is rejected. -/
theorem claim_C1_validation_witness :
    (addRuleValidate cfg0 "x&&y" "u" = addRuleValidate cfg0 "x&&y" "u")
    ∧ (∃ e, addRuleValidate cfg0 "x&&y" "u" = .error e)
    ∧ (∃ e, addRuleValidate cfg0 "x&&y" "u" = .error e) :=
  ⟨(claim_C1_validation cfg0 "x&&y" "u").1,
   (claim_C1_validation cfg0 "x&&y" "u").2.1 (by decide),
   (claim_C1_validation cfg0 "x&&y" "u").2.2 (by decide)⟩

lemma lineShape_decomp : ∀ (l : List Char), lineShape l = true →
    ∃ w, l = w ++ ['\n'] ∧ '\n' ∉ w := by
  intro l
  induction l with
  | nil => intro h; cases h
  | cons c cs ih =>
    intro h
    cases cs with
    | nil =>
      have : c = '\n' := by simpa [lineShape] using h
      exact ⟨[], by simp [this]⟩
    | cons d ds =>
      have h1 : c ≠ '\n' ∧ lineShape (d :: ds) = true := by
        simpa [lineShape] using h
      obtain ⟨w, hw, hnw⟩ := ih h1.2
      exact ⟨c :: w, by simp [hw], by simp [hnw, Ne.symm h1.1]⟩

lemma readlinesAux_line (w : List Char) (hw : '\n' ∉ w) :
    ∀ (acc rest : List Char),
    readlinesAux (w ++ '\n' :: rest) acc
      = String.mk (acc.reverse ++ w ++ ['\n']) :: readlinesAux rest [] := by
  induction w with
  | nil =>
    intro acc rest
    simp [readlinesAux]
  | cons c cs ih =>
    intro acc rest
    have hc : c ≠ '\n' := fun h => hw (h ▸ List.mem_cons_self c cs)
    have hcs : '\n' ∉ cs := fun h => hw (List.mem_cons_of_mem c h)
    have step : readlinesAux ((c :: cs) ++ '\n' :: rest) acc
        = readlinesAux (cs ++ '\n' :: rest) (c :: acc) := by
      simp [readlinesAux, hc]
    rw [step, ih hcs (c :: acc) rest]
    simp

lemma foldl_append_data (R : List String) : ∀ (acc : String),
    (List.foldl (fun a s => a ++ s) acc R).data = acc.data ++ (R.map String.data).flatten := by
  induction R with
  | nil => intro acc; simp
  | cons a t ih =>
    intro acc
    simp only [List.foldl_cons, List.map_cons, List.flatten_cons]
    rw [ih (acc ++ a), String.data_append, List.append_assoc]

lemma join_data (R : List String) :
    (String.join R).data = (R.map String.data).flatten := by
  simpa [String.join] using foldl_append_data R ""

/-- Concatenation of the file data written by `writelines`. -/
lemma pyWritelines_cons (r : String) (rs : List String) :
    (pyWritelines (r :: rs)).data = r.data ++ (pyWritelines rs).data := by
  simp [pyWritelines, join_data]

/-- Reading back the concatenation of well-shaped lines yields exactly
    those lines: the core of the save round-trip. -/
lemma readlines_writelines (R : List String) (hR : ∀ r ∈ R, ruleLine r = true) :
    pyReadlines (pyWritelines R) = R := by
  induction R with
  | nil => simp [pyReadlines, pyWritelines, String.join, readlinesAux]
  | cons r rs ih =>
    have hr : ruleLine r = true := hR r (List.mem_cons_self r rs)
    obtain ⟨w, hw, hnw⟩ := lineShape_decomp r.data hr
    have hrest : ∀ x ∈ rs, ruleLine x = true :=
      fun x hx => hR x (List.mem_cons_of_mem r hx)
    unfold pyReadlines
    rw [pyWritelines_cons, hw]
    rw [List.append_assoc, List.singleton_append]
    rw [readlinesAux_line w hnw [] (pyWritelines rs).data]
    have : String.mk (List.reverse [] ++ w ++ ['\n']) = r := by
      have : String.mk r.data = r := rfl
      rw [← this, hw]
      simp
    rw [this]
    have ihx := ih hrest
    unfold pyReadlines at ihx
    rw [ihx]

lemma alookup_aset_self {α : Type} (l : List (String × α)) (k : String) (v : α) :
    alookup (aset l k v) k = some v := by
  induction l with
  | nil => simp [aset, alookup]
  | cons p t ih =>
    obtain ⟨k1, v1⟩ := p
    by_cases h : k1 = k
    · simp [aset, alookup, h]
    · simp [aset, alookup, h, ih]

/-- C2: round trip.  If `save()` under granted authorization reports a
    written change (`true`) for an owner whose staged list is `R` (each
    entry a single newline-terminated rule line, as every rule built by
    `addRule` is), then the persisted file of the resolved user is
    exactly the concatenation of `R`, and splitting it back into lines
    (`readlines`, the very comparison `save` itself uses to detect a
    no-change call) yields `R` byte for byte. -/
theorem claim_C2_save_roundtrip (st : St) (owner user : String) (R : List String) (res : St)
    (hR : alookup st.tmpDict owner = some R)
    (hline : ∀ r ∈ R, ruleLine r = true)
    (hsave : save authOk st owner user = (.ok true, res)) :
    alookup res.files user = some (pyWritelines R)
      ∧ pyReadlines (pyWritelines R) = R := by
  have hread := readlines_writelines R hline
  refine ⟨?_, hread⟩
  unfold save at hsave
  rw [hR] at hsave
  cases R with
  | nil =>
    rcases h1 : deleteOp authOk st owner user with ⟨r1, st1⟩
    rw [h1] at hsave
    cases r1 with
    | error e => cases hsave
    | ok u => cases u; cases hsave
  | cons r rs =>
    rcases hf : alookup st.files user with _ | contents
    · rw [hf] at hsave
      simp only [authOk] at hsave
      have : res = ⟨(clean st owner).tmpDict, aset st.files user (pyWritelines (r :: rs))⟩ := by
        cases hsave
        rfl
      rw [this]
      exact alookup_aset_self st.files user (pyWritelines (r :: rs))
    · rw [hf] at hsave
      simp only [] at hsave
      by_cases heq : r :: rs = pyReadlines contents
      · rw [if_pos heq] at hsave
        cases hsave
      · rw [if_neg heq] at hsave
        simp only [authOk] at hsave
        have : res = ⟨(clean st owner).tmpDict, aset st.files user (pyWritelines (r :: rs))⟩ := by
          cases hsave
          rfl
        rw [this]
        exact alookup_aset_self st.files user (pyWritelines (r :: rs))

/-- Witness for C2: one staged rule built by `addRule` from the
    end-to-end scenario of the spec, saved into an empty filesystem. -/
theorem claim_C2_save_roundtrip_witness :
    alookup (save authOk
        ⟨[("o", [mkRule cfg0 "u" "/usr/bin/backintime --backup" "1234-uuid"])], []⟩
        "o" "u").2.files "u"
      = some (pyWritelines [mkRule cfg0 "u" "/usr/bin/backintime --backup" "1234-uuid"])
    ∧ pyReadlines (pyWritelines [mkRule cfg0 "u" "/usr/bin/backintime --backup" "1234-uuid"])
      = [mkRule cfg0 "u" "/usr/bin/backintime --backup" "1234-uuid"] :=
  claim_C2_save_roundtrip
    ⟨[("o", [mkRule cfg0 "u" "/usr/bin/backintime --backup" "1234-uuid"])], []⟩
    "o" "u" [mkRule cfg0 "u" "/usr/bin/backintime --backup" "1234-uuid"]
    (save authOk
      ⟨[("o", [mkRule cfg0 "u" "/usr/bin/backintime --backup" "1234-uuid"])], []⟩
      "o" "u").2
    (by decide) (by decide) (by decide)

lemma alookup_none_of_not_mem {α : Type} (l : List (String × α)) (k : String)
    (h : k ∉ l.map Prod.fst) : alookup l k = none := by
  induction l with
  | nil => rfl
  | cons p t ih =>
    obtain ⟨k1, v1⟩ := p
    simp only [List.map_cons, List.mem_cons] at h
    push_neg at h
    have hne : ¬(k1 = k) := fun hh => h.1 hh.symm
    simp [alookup, hne, ih h.2]

lemma alookup_aerase_self {α : Type} (l : List (String × α)) (k : String)
    (h : (l.map Prod.fst).Nodup) : alookup (aerase l k) k = none := by
  induction l with
  | nil => rfl
  | cons p t ih =>
    obtain ⟨k1, v1⟩ := p
    simp only [List.map_cons, List.nodup_cons] at h
    by_cases hk : k1 = k
    · simp only [aerase, if_pos hk]
      exact alookup_none_of_not_mem t k (hk ▸ h.1)
    · simp only [aerase, if_neg hk]
      simp [alookup, hk, ih h.2]

/-- `delete` under a granted oracle always returns without error. -/
lemma deleteOp_authOk_ok (st : St) (owner user : String) :
    ∃ st2, deleteOp authOk st owner user = (.ok (), st2) := by
  unfold deleteOp
  rcases h : alookup (clean st owner).files user with _ | c
  · simp [h]
  · simp [h, authOk]

/-- Whatever `delete` does to the filesystem, its staged-state effect is
    exactly erasing the calling owner. -/
lemma deleteOp_tmp (auth : String → Except VErr Unit) (st : St) (owner user : String) :
    ((deleteOp auth st owner user).2).tmpDict = aerase st.tmpDict owner := by
  unfold deleteOp
  rcases h : alookup st.files user with _ | c
  · simp [clean, h]
  · rcases ha : auth "net.launchpad.backintime.UdevRuleDelete" with e | u
    · simp [clean, h, ha]
    · cases u; simp [clean, h, ha]

/-- After any `save` under a granted oracle, the calling owner has no
    staged rules left. -/
lemma save_authOk_clears (st : St) (owner user : String)
    (hnd : (st.tmpDict.map Prod.fst).Nodup) :
    alookup ((save authOk st owner user).2).tmpDict owner = none := by
  have herase := alookup_aerase_self st.tmpDict owner hnd
  unfold save
  rcases hR : alookup st.tmpDict owner with _ | rules
  · obtain ⟨st2, hd⟩ := deleteOp_authOk_ok st owner user
    have htmp : st2.tmpDict = aerase st.tmpDict owner := by
      have hx := deleteOp_tmp authOk st owner user
      rw [hd] at hx
      simpa using hx
    rw [hd]
    simpa [htmp] using herase
  · cases rules with
    | nil =>
      obtain ⟨st2, hd⟩ := deleteOp_authOk_ok st owner user
      have htmp : st2.tmpDict = aerase st.tmpDict owner := by
        have hx := deleteOp_tmp authOk st owner user
        rw [hd] at hx
        simpa using hx
      rw [hd]
      simpa [htmp] using herase
    | cons r rs =>
      rcases hf : alookup st.files user with _ | contents
      · simpa [hf, authOk, clean] using herase
      · by_cases heq : r :: rs = pyReadlines contents
        · simpa [hf, heq, clean] using herase
        · simpa [hf, heq, authOk, clean] using herase

/-- C3: idempotence of save.  With authorization granted, a second
    `save()` right after a first one (no intervening `addRule`) reports
    no change (returns `false`): the first call always leaves the owner
    with no staged rules, and `save` with nothing staged performs the
    implicit delete and returns `false`. -/
theorem claim_C3_save_idempotent (st : St) (owner user : String)
    (hnd : (st.tmpDict.map Prod.fst).Nodup) :
    (save authOk (save authOk st owner user).2 owner user).1 = .ok false := by
  have h1 := save_authOk_clears st owner user hnd
  generalize hst1 : (save authOk st owner user).2 = st1 at h1 ⊢
  obtain ⟨st2, hd⟩ := deleteOp_authOk_ok st1 owner user
  unfold save
  rw [h1, hd]

/-- Witness for C3 at a concrete broker state with one staged rule. -/
theorem claim_C3_save_idempotent_witness :
    (save authOk (save authOk ⟨[("o", ["line\n"])], []⟩ "o" "u").2 "o" "u").1 = .ok false :=
  claim_C3_save_idempotent ⟨[("o", ["line\n"])], []⟩ "o" "u" (by decide)

lemma addRule_staged_step (cfg : Cfg) (owner user cmd uuid : String)
    (hv : addRuleValidate cfg cmd uuid = .ok ())
    (hlen : cmd.length ≤ 120) (j : Nat) (hj : j < 100) :
    addRule cfg (stagedSt owner (List.replicate j (mkRule cfg user cmd uuid))) owner user cmd uuid
      = (.ok (), stagedSt owner (List.replicate (j + 1) (mkRule cfg user cmd uuid))) := by
  have hlen2 : ¬(cmd.length > 120) := by omega
  cases j with
  | zero =>
    simp only [addRule, hv, checkLimits, stagedSt, List.replicate]
    simp [alookup, aset, hlen2]
  | succ i =>
    have hne : List.replicate (i + 1) (mkRule cfg user cmd uuid) ≠ [] := by
      simp [List.replicate]
    have hlook :
        alookup (stagedSt owner (List.replicate (i + 1) (mkRule cfg user cmd uuid))).tmpDict owner
          = some (List.replicate (i + 1) (mkRule cfg user cmd uuid)) := by
      simp [stagedSt, hne, alookup]
    have hcnt : ¬((List.replicate (i + 1) (mkRule cfg user cmd uuid)).length ≥ 100) := by
      simp only [List.length_replicate]
      omega
    simp only [addRule, hv, checkLimits, hlook, Option.getD_some]
    rw [if_neg hcnt]
    have hdict : ¬((stagedSt owner (List.replicate (i + 1) (mkRule cfg user cmd uuid))).tmpDict.length ≥ 20) := by
      simp [stagedSt, hne]
    rw [if_neg hdict, if_neg hlen2]
    simp only [stagedSt, hne, if_neg hne, if_neg (by simp [List.replicate] : ¬(List.replicate (i + 1 + 1) (mkRule cfg user cmd uuid) = []))]
    simp [aset, ← List.replicate_succ']

lemma addRuleN_staged (cfg : Cfg) (owner user cmd uuid : String)
    (hv : addRuleValidate cfg cmd uuid = .ok ())
    (hlen : cmd.length ≤ 120) :
    ∀ (k j : Nat), j + k ≤ 100 →
    addRuleN cfg owner user cmd uuid k (stagedSt owner (List.replicate j (mkRule cfg user cmd uuid)))
      = (.ok (), stagedSt owner (List.replicate (j + k) (mkRule cfg user cmd uuid))) := by
  intro k
  induction k with
  | zero => intro j hj; simp [addRuleN]
  | succ n ih =>
    intro j hj
    have hstep := addRule_staged_step cfg owner user cmd uuid hv hlen j (by omega)
    simp only [addRuleN, hstep]
    have := ih (j + 1) (by omega)
    rw [this]
    have harith : j + 1 + n = j + (n + 1) := by omega
    rw [harith]

/-- C4: quota boundary with error atomicity.  With a command and uuid
    that pass validation and the length limit, a fresh broker accepts
    `max_rules` (100) successive `addRule` calls from one owner, each
    appending one rule; the 101st call fails with the named
    `LimitExceeded` error and leaves the 100 staged rules (indeed the
    entire broker state) untouched. -/
theorem claim_C4_quota_boundary (cfg : Cfg) (owner user cmd uuid : String)
    (hv : addRuleValidate cfg cmd uuid = .ok ())
    (hlen : cmd.length ≤ 120) :
    (∀ k, k ≤ 100 →
      addRuleN cfg owner user cmd uuid k st0
        = (.ok (), stagedSt owner (List.replicate k (mkRule cfg user cmd uuid))))
    ∧ addRule cfg (stagedSt owner (List.replicate 100 (mkRule cfg user cmd uuid))) owner user cmd uuid
        = (.error (.limitExceeded "Maximum number of cached rules reached"),
           stagedSt owner (List.replicate 100 (mkRule cfg user cmd uuid))) := by
  constructor
  · intro k hk
    have h0 : st0 = stagedSt owner (List.replicate 0 (mkRule cfg user cmd uuid)) := by
      simp [st0, stagedSt]
    rw [h0]
    have := addRuleN_staged cfg owner user cmd uuid hv hlen k 0 (by omega)
    simpa using this
  · have hne : List.replicate 100 (mkRule cfg user cmd uuid) ≠ [] := by
      simp [List.replicate]
    have hlook :
        alookup (stagedSt owner (List.replicate 100 (mkRule cfg user cmd uuid))).tmpDict owner
          = some (List.replicate 100 (mkRule cfg user cmd uuid)) := by
      simp [stagedSt, hne, alookup]
    have hcnt : (List.replicate 100 (mkRule cfg user cmd uuid)).length ≥ 100 := by
      simp [List.length_replicate]
    simp only [addRule, hv, checkLimits, hlook, Option.getD_some, if_pos hcnt]

/-- Witness for C4 at the concrete spec scenario values. -/
theorem claim_C4_quota_boundary_witness :
    (addRuleN cfg0 "o" "u" "/usr/bin/backintime --backup" "1234-uuid" 100 st0
        = (.ok (), stagedSt "o" (List.replicate 100 (mkRule cfg0 "u" "/usr/bin/backintime --backup" "1234-uuid"))))
    ∧ addRule cfg0 (stagedSt "o" (List.replicate 100 (mkRule cfg0 "u" "/usr/bin/backintime --backup" "1234-uuid"))) "o" "u" "/usr/bin/backintime --backup" "1234-uuid"
        = (.error (.limitExceeded "Maximum number of cached rules reached"),
           stagedSt "o" (List.replicate 100 (mkRule cfg0 "u" "/usr/bin/backintime --backup" "1234-uuid"))) :=
  ⟨(claim_C4_quota_boundary cfg0 "o" "u" "/usr/bin/backintime --backup" "1234-uuid"
      (by decide) (by decide)).1 100 (by decide),
   (claim_C4_quota_boundary cfg0 "o" "u" "/usr/bin/backintime --backup" "1234-uuid"
      (by decide) (by decide)).2⟩

/-- If every `CheckAuthorization` attempt raises, the privilege check
    never returns success, whatever the recursion depth. -/
lemma checkPolkit_unreachable_fails (attempts : Nat → PolkitResp)
    (h : ∀ n b, attempts n ≠ .auth b) (priv : String) :
    ∀ (fuel k : Nat), ∃ e, checkPolkit attempts priv fuel k = .error e := by
  intro fuel
  induction fuel with
  | zero => intro k; exact ⟨.recursionError, rfl⟩
  | succ n ih =>
    intro k
    rcases ha : attempts k with b | _ | _
    · exact absurd ha (h k b)
    · obtain ⟨e, he⟩ := ih (k + 1)
      exact ⟨e, by simp only [checkPolkit, ha]; exact he⟩
    · exact ⟨.dbusError, by simp only [checkPolkit, ha]⟩

/-- Under an authorization function that always fails, `save` never
    reports a written change and never touches the filesystem. -/
lemma save_authFail (auth : String → Except VErr Unit)
    (hauth : ∀ p, ∃ e, auth p = .error e) (st : St) (owner user : String) :
    (save auth st owner user).1 ≠ .ok true
      ∧ ((save auth st owner user).2).files = st.files := by
  obtain ⟨ed, hed⟩ := hauth "net.launchpad.backintime.UdevRuleDelete"
  obtain ⟨es, hes⟩ := hauth "net.launchpad.backintime.UdevRuleSave"
  unfold save deleteOp
  rcases hR : alookup st.tmpDict owner with _ | rules
  · rcases hf : alookup st.files user with _ | c
    · simp [clean, hf]
    · simp [clean, hf, hed]
  · cases rules with
    | nil =>
      rcases hf : alookup st.files user with _ | c
      · simp [clean, hf]
      · simp [clean, hf, hed]
    | cons r rs =>
      rcases hf : alookup st.files user with _ | contents
      · simp [hf, hes]
      · by_cases heq : r :: rs = pyReadlines contents
        · simp [hf, heq, clean]
        · simp [hf, heq, hes]

/-- Under an authorization function that always fails, `delete` never
    removes the persisted file. -/
lemma delete_authFail (auth : String → Except VErr Unit)
    (hauth : ∀ p, ∃ e, auth p = .error e) (st : St) (owner user : String) :
    ((deleteOp auth st owner user).2).files = st.files := by
  obtain ⟨ed, hed⟩ := hauth "net.launchpad.backintime.UdevRuleDelete"
  unfold deleteOp
  rcases hf : alookup st.files user with _ | c
  · simp [clean, hf]
  · simp [clean, hf, hed]

/-- C5: fail-closed authorization.  If polkit is unreachable for the
    entire duration of a call (every `CheckAuthorization` attempt
    raises an exception), the privilege check never returns success —
    whatever the recursion depth it ends in a raised error
    (`DBusException` or `RecursionError`) — and a `save()` or
    `delete()` running under such an oracle fails closed: `save` never
    reports a written change and the persisted files are untouched by
    both calls. -/
theorem claim_C5_fail_closed (attempts : Nat → PolkitResp)
    (h : ∀ n b, attempts n ≠ .auth b)
    (priv : String) (fuel k : Nat) (st : St) (owner user : String) :
    (∃ e, checkPolkit attempts priv fuel k = .error e)
    ∧ (save (polkitAuth attempts fuel) st owner user).1 ≠ .ok true
    ∧ ((save (polkitAuth attempts fuel) st owner user).2).files = st.files
    ∧ ((deleteOp (polkitAuth attempts fuel) st owner user).2).files = st.files := by
  have hauth : ∀ p, ∃ e, polkitAuth attempts fuel p = .error e :=
    fun p => checkPolkit_unreachable_fails attempts h p fuel 0
  obtain ⟨h1, h2⟩ := save_authFail (polkitAuth attempts fuel) hauth st owner user
  exact ⟨checkPolkit_unreachable_fails attempts h priv fuel k, h1, h2,
         delete_authFail (polkitAuth attempts fuel) hauth st owner user⟩

/-- Witness for C5: polkit answers every attempt with ServiceUnknown
    (polkitd never comes back), against a broker holding one staged
    rule and one persisted file. -/
theorem claim_C5_fail_closed_witness :
    (∃ e, checkPolkit (fun _ => .exnServiceUnknown) "p" 3 0 = .error e)
    ∧ (save (polkitAuth (fun _ => .exnServiceUnknown) 3)
        ⟨[("o", ["x\n"])], [("u", "old\n")]⟩ "o" "u").1 ≠ .ok true
    ∧ ((save (polkitAuth (fun _ => .exnServiceUnknown) 3)
        ⟨[("o", ["x\n"])], [("u", "old\n")]⟩ "o" "u").2).files = [("u", "old\n")]
    ∧ ((deleteOp (polkitAuth (fun _ => .exnServiceUnknown) 3)
        ⟨[("o", ["x\n"])], [("u", "old\n")]⟩ "o" "u").2).files = [("u", "old\n")] :=
  claim_C5_fail_closed (fun _ => .exnServiceUnknown)
    (fun _ _ hx => PolkitResp.noConfusion hx) "p" 3 0
    ⟨[("o", ["x\n"])], [("u", "old\n")]⟩ "o" "u"

lemma pyWritelines_cons_str (r : String) (rs : List String) :
    pyWritelines (r :: rs) = r ++ pyWritelines rs := by
  have h : (pyWritelines (r :: rs)).data = ((r ++ pyWritelines rs) : String).data := by
    rw [pyWritelines_cons, String.data_append]
  have h2 : String.mk (pyWritelines (r :: rs)).data
      = String.mk ((r ++ pyWritelines rs) : String).data := by rw [h]
  exact h2

lemma writeStatesAux_last (R : List String) : ∀ (acc : String),
    (acc :: writeStatesAux acc R).getLast? = some (acc ++ pyWritelines R) := by
  induction R with
  | nil =>
    intro acc
    simp [writeStatesAux, pyWritelines, String.join]
  | cons r rs ih =>
    intro acc
    rw [writeStatesAux, List.getLast?_cons_cons, ih (acc ++ r),
        pyWritelines_cons_str, String.append_assoc]

lemma mem_writeStatesAux (R : List String) : ∀ (acc : String) (s : String),
    s ∈ writeStatesAux acc R →
    ∃ p t, p ++ t = R ∧ p ≠ [] ∧ s = acc ++ pyWritelines p := by
  induction R with
  | nil => intro acc s h; cases h
  | cons r rs ih =>
    intro acc s h
    simp only [writeStatesAux, List.mem_cons] at h
    rcases h with h | h
    · refine ⟨[r], rs, rfl, by simp, ?_⟩
      rw [h, pyWritelines_cons_str]
      simp [pyWritelines, String.join, String.append_empty]
    · obtain ⟨p, t, hp, hpne, hs⟩ := ih (acc ++ r) s h
      refine ⟨r :: p, t, by simp [hp], by simp, ?_⟩
      rw [hs, pyWritelines_cons_str, String.append_assoc]

/-- Counterexample to C6: the write of `save` is not atomic for a
    concurrent reader.  With previous contents a and staged rules
    [b, c], the observable trace contains the empty file and the
    half-written file b, neither of which is the old contents nor the
    complete new contents. -/
theorem claim_C6_counterexample :
    "" ∈ saveWriteTrace "a\n" ["b\n", "c\n"]
    ∧ "b\n" ∈ saveWriteTrace "a\n" ["b\n", "c\n"]
    ∧ "" ≠ "a\n" ∧ "" ≠ pyWritelines ["b\n", "c\n"]
    ∧ "b\n" ≠ "a\n" ∧ "b\n" ≠ pyWritelines ["b\n", "c\n"] := by
  decide

/-- C6 amended: `save` replaces the rule file with an in-place
    truncate-then-sequential-write (no temp-file-then-rename).  A
    concurrent reader can observe, besides the old contents, the empty
    file and the concatenation of every prefix of the staged rules;
    only the final state equals the full staged contents, which the
    completed authorized save does leave behind. -/
theorem claim_C6_write_not_atomic_amended (old : String) (R : List String) :
    (saveWriteTrace old R).getLast? = some (pyWritelines R)
    ∧ (∀ s ∈ saveWriteTrace old R,
        s = old ∨ ∃ p t, p ++ t = R ∧ s = pyWritelines p)
    ∧ "" ∈ saveWriteTrace old R := by
  refine ⟨?_, ?_, by simp [saveWriteTrace]⟩
  · rw [saveWriteTrace, List.getLast?_cons_cons, writeStatesAux_last R "",
        String.empty_append]
  · intro s hs
    simp only [saveWriteTrace, List.mem_cons] at hs
    rcases hs with h | h | h
    · exact Or.inl h
    · exact Or.inr ⟨[], R, by simp, by simp [h, pyWritelines, String.join]⟩
    · obtain ⟨p, t, hp, _, hsv⟩ := mem_writeStatesAux R "" s h
      exact Or.inr ⟨p, t, hp, by rw [hsv, String.empty_append]⟩

/-- Witness for the amended C6 at concrete contents. -/
theorem claim_C6_write_not_atomic_amended_witness :
    (saveWriteTrace "a\n" ["b\n"]).getLast? = some (pyWritelines ["b\n"])
    ∧ ("" = "a\n" ∨ ∃ p t, p ++ t = ["b\n"] ∧ "" = pyWritelines p)
    ∧ "" ∈ saveWriteTrace "a\n" ["b\n"] :=
  ⟨(claim_C6_write_not_atomic_amended "a\n" ["b\n"]).1,
   (claim_C6_write_not_atomic_amended "a\n" ["b\n"]).2.1 "" (by decide),
   (claim_C6_write_not_atomic_amended "a\n" ["b\n"]).2.2⟩

/-- Counterexample to C7: the handler reset of `Execute.run` is not
    guaranteed cleanup.  When `Popen` raises, and likewise when the
    streaming callback raises, `run` terminates with the three
    handlers still installed, not restored to default. -/
theorem claim_C7_counterexample :
    ((run envSpawnFail).1 = .spawnExn ∧ (run envSpawnFail).2 ≠ defaultHandlers)
    ∧ ((run envCbFail).1 = .callbackExn ∧ (run envCbFail).2 ≠ defaultHandlers) := by
  decide

/-- C7 amended: the three handlers are restored to default exactly on
    the normal-return path.  On an exception during spawn or from the
    streaming callback they keep whatever disposition the installation
    step gave them (installed when signal setup succeeded, untouched
    default otherwise): the reset is straight-line code after the
    wait, not scoped cleanup. -/
theorem claim_C7_signal_restore_amended (env : RunEnv) :
    (run env).2 = (match (run env).1 with
      | .ret _ => defaultHandlers
      | _ => if env.signalOk then installedHandlers else defaultHandlers) := by
  unfold run
  rcases hs : env.spawn with _ | ⟨lines, rc⟩
  · simp
  · by_cases hcb : env.cbPresent && streamRaises env.filters env.cbRaisesOn lines
    · simp [hcb]
    · simp [hcb]
      intro h1 h2
      rw [h1] at h2
      cases h2

/-- C8 evaluated at the failing input: with a live child but
    `pausable = False`, the SIGHUP slot does **not** kill the child —
    `kill` tests `self.pausable` exactly like `pause`/`resume` do —
    contradicting the claim (and the class docstring) that hangup kills
    unconditionally and that `pausable` gates only suspend/continue
    forwarding.  With `pausable = True` the kill does happen. -/
theorem claim_C8_kill_gated_by_pausable :
    killAction false true = false
    ∧ killAction true true = true
    ∧ pauseAction false true = false
    ∧ resumeAction false true = false := by
  decide

/-- Counterexample to C9: the capability parser is not total and
    progress2 is not governed solely by the version threshold.  On the
    probe text rsync version v3.1x5 the second matcher fires but its
    captured group is not a valid version string, so `Version` raises
    and the exception escapes `rsyncCaps`; and a text whose
    Capabilities section literally lists progress2 yields that
    capability although no version pattern matched at all. -/
theorem claim_C9_counterexample :
    rsyncCaps "rsync version v3.1x5" = .error ()
    ∧ rsyncCaps "junk\nCapabilities: progress2\n\n" = .ok ["progress2"]
    ∧ versionCond ("junk\nCapabilities: progress2\n\n").data = false := by
  decide

/-- C9 amended: `rsyncCaps` raises exactly when the matcher loop
    reaches the second version matcher and its captured five-character
    group does not parse as a version (`errCond`); otherwise it returns
    progress2 exactly when a version matcher fired with parsed version
    at least 3.1 (`versionCond`), followed by whatever tokens the
    Capabilities section lists — so with no version match and no
    Capabilities marker the capability set is empty, but a Capabilities
    section can also inject progress2 itself. -/
theorem claim_C9_rsyncCaps_amended (data : String) :
    rsyncCaps data =
      (if errCond data.data then .error ()
       else .ok ((if versionCond data.data then ["progress2"] else [])
         ++ (match capsGroup data.data with
             | some g => capsTokens g
             | none => []))) := by
  unfold rsyncCaps verBranch versionCond errCond
  rcases h1 : matchVer1 data.data with _ | ⟨d1, d2⟩
  · rcases h2 : matchVer2 data.data with _ | ⟨a, b, x, c⟩
    · rcases h4 : capsGroup data.data with _ | g <;> simp [h2, h4]
    · rcases h3 : ver2GE a b x c with _ | bb
      · simp [h2, h3]
      · cases bb <;> rcases h4 : capsGroup data.data with _ | g <;> simp [h2, h3, h4]
  · by_cases hge : ver1GE d1 d2
    · rcases h4 : capsGroup data.data with _ | g <;> simp [hge, h4]
    · rcases h2 : matchVer2 data.data with _ | ⟨a, b, x, c⟩
      · rcases h4 : capsGroup data.data with _ | g <;> simp [hge, h2, h4]
      · rcases h3 : ver2GE a b x c with _ | bb
        · simp [hge, h2, h3]
        · cases bb <;> rcases h4 : capsGroup data.data with _ | g <;>
            simp [hge, h2, h3, h4]

/-- C10: a command with a shell redirection survives the whole
    validation of `addRule`.  The character allow-list admits the
    greater-than sign and the ampersand, and the command-shape check
    only inspects whitespace-separated tokens up to the entry-point
    path, so the concrete command is accepted, staged, and embedded
    verbatim (redirection included) in the su-wrapped rule line. -/
theorem claim_C10_redirect_accepted :
    cmdCharOk (Char.ofNat 62) = true
    ∧ cmdCharOk (Char.ofNat 38) = true
    ∧ (addRule cfg0 st0 "o" "u" "/usr/bin/backintime --backup >/tmp/x" "1234").1 = .ok ()
    ∧ alookup (addRule cfg0 st0 "o" "u" "/usr/bin/backintime --backup >/tmp/x" "1234").2.tmpDict "o"
        = some [mkRule cfg0 "u" "/usr/bin/backintime --backup >/tmp/x" "1234"]
    ∧ hasSubstr (mkRule cfg0 "u" "/usr/bin/backintime --backup >/tmp/x" "1234")
        "/usr/bin/backintime --backup >/tmp/x" = true := by
  decide

end BackInTime
